import Mathlib

/-!
# Verification of the PDF_manager setlist subsystem

Shallow embedding of the `Setlist` / `SetlistManager` navigation state machine
and its persistence format (`src/setlist_gen.h`, `src/setlist_gen.cpp`),
together with the page-navigation state of the `PdfViewer` collaborator
(`src/pdf_viewer.h`, `src/pdf_viewer.cpp`).

Modelling conventions:
* C++ `std::string` becomes `String`; file contents become `List Char`
  (`std::getline` is modelled by `splitLines`).
* C++ `int` fields become `Int`, `size_t` parameters become `Nat`,
  mirroring the explicit `static_cast<int>` conversions of the source.
* The filesystem / PDFium environment is abstracted by `Env`: for each path it
  yields `none` when `PdfViewer::Load` would fail, and `some pageCount` when it
  would succeed with that page count.
* Stateful member functions become functions returning the new state
  (paired with the C++ `bool` result where the source returns one).
-/

set_option maxRecDepth 4000

/-- One PDF file entry within a setlist (`struct SetlistItem`). -/
structure SetlistItem where
  name : String
  fullPath : String
deriving DecidableEq, Inhabited

/-- An ordered, named collection of PDF items (`class Setlist`). -/
structure Setlist where
  m_name : String
  m_items : List SetlistItem
deriving DecidableEq, Inhabited

/-- `Setlist::GetName`. -/
def Setlist.GetName (s : Setlist) : String := s.m_name

/-- `Setlist::GetItems`. -/
def Setlist.GetItems (s : Setlist) : List SetlistItem := s.m_items

/-- `Setlist::GetItemCount`. -/
def Setlist.GetItemCount (s : Setlist) : Nat := s.m_items.length

/-- `Setlist::AddItem(name, fullPath)`: appends to the end; fails (no
mutation) iff the path is empty. -/
def Setlist.AddItem (s : Setlist) (name fullPath : String) : Setlist × Bool :=
  if fullPath = "" then (s, false)
  else ({ s with m_items := s.m_items ++ [{ name := name, fullPath := fullPath }] }, true)

/-- `Setlist::RemoveItem(index)`: fails iff out of bounds. -/
def Setlist.RemoveItem (s : Setlist) (index : Nat) : Setlist × Bool :=
  if s.m_items.length ≤ index then (s, false)
  else ({ s with m_items := s.m_items.eraseIdx index }, true)

/-- `Setlist::MoveItem(fromIndex, toIndex)`: fails iff either index is out of
bounds; no-op success when equal; otherwise erase at `fromIndex` then insert at
`toIndex` (position computed after the erase, as `std::vector` splice). -/
def Setlist.MoveItem (s : Setlist) (fromIndex toIndex : Nat) : Setlist × Bool :=
  if s.m_items.length ≤ fromIndex ∨ s.m_items.length ≤ toIndex then (s, false)
  else if fromIndex = toIndex then (s, true)
  else
    let item := s.m_items.getD fromIndex default
    ({ s with m_items := List.insertIdx toIndex item (s.m_items.eraseIdx fromIndex) }, true)

/-- `Setlist::Clear`. -/
def Setlist.Clear (s : Setlist) : Setlist := { s with m_items := [] }

/-- Abstraction of the filesystem + PDFium: for each path, `none` when
`PdfViewer::Load` on that path would fail, `some pc` when it would succeed
and the loaded document has `pc` pages. -/
def Env : Type := String → Option Nat

/-- Page-navigation state of `class PdfViewer`: `m_document` records whether a
document is loaded (`m_document != nullptr` in the source); rendering/zoom
state is irrelevant to the navigation logic and omitted. -/
structure PdfViewer where
  m_document : Bool
  m_currentPage : Int
  m_pageCount : Int
deriving DecidableEq, Inhabited

/-- `PdfViewer::IsLoaded`. -/
def PdfViewer.IsLoaded (v : PdfViewer) : Bool := v.m_document

/-- `PdfViewer::GetCurrentPage`. -/
def PdfViewer.GetCurrentPage (v : PdfViewer) : Int := v.m_currentPage

/-- `PdfViewer::GetPageCount`. -/
def PdfViewer.GetPageCount (v : PdfViewer) : Int := v.m_pageCount

/-- `PdfViewer::CanGoNext`: `m_currentPage < m_pageCount - 1`. -/
def PdfViewer.CanGoNext (v : PdfViewer) : Bool :=
  v.m_currentPage < v.m_pageCount - 1

/-- `PdfViewer::CanGoPrevious`: `m_currentPage > 0`. -/
def PdfViewer.CanGoPrevious (v : PdfViewer) : Bool :=
  0 < v.m_currentPage

/-- `PdfViewer::NextPage`. -/
def PdfViewer.NextPage (v : PdfViewer) : PdfViewer :=
  if v.CanGoNext then { v with m_currentPage := v.m_currentPage + 1 } else v

/-- `PdfViewer::PreviousPage`. -/
def PdfViewer.PreviousPage (v : PdfViewer) : PdfViewer :=
  if v.CanGoPrevious then { v with m_currentPage := v.m_currentPage - 1 } else v

/-- `PdfViewer::GoToPage(page)`: in-range and different from current, else no-op. -/
def PdfViewer.GoToPage (v : PdfViewer) (page : Int) : PdfViewer :=
  if 0 ≤ page ∧ page < v.m_pageCount ∧ page ≠ v.m_currentPage then
    { v with m_currentPage := page }
  else v

/-- `PdfViewer::Close`: resets navigation state. -/
def PdfViewer.Close (_v : PdfViewer) : PdfViewer :=
  { m_document := false, m_currentPage := 0, m_pageCount := 0 }

/-- `PdfViewer::Load(filepath)`: closes the current document first; on any
failure (open / read / parse, abstracted by `env`) leaves the closed viewer;
on success current page is 0 and the page count is the document's. -/
def PdfViewer.Load (env : Env) (v : PdfViewer) (filepath : String) : PdfViewer × Bool :=
  let closed := v.Close
  match env filepath with
  | none => (closed, false)
  | some pc => ({ m_document := true, m_currentPage := 0, m_pageCount := (pc : Int) }, true)

/-- `class SetlistManager` state: the setlist collection plus the active
setlist/item indices (`int` with `-1` sentinel, as in the source). -/
structure SetlistManager where
  m_setlists : List Setlist
  m_activeSetlistIndex : Int := -1
  m_activeItemIndex : Int := -1
deriving DecidableEq, Inhabited

/-- `SetlistManager::GetSetlistCount`. -/
def SetlistManager.GetSetlistCount (m : SetlistManager) : Nat := m.m_setlists.length

/-- `SetlistManager::IsActive`: `m_activeSetlistIndex >= 0`. -/
def SetlistManager.IsActive (m : SetlistManager) : Bool :=
  0 ≤ m.m_activeSetlistIndex

/-- `SetlistManager::CreateSetlist(name)`: appends a new empty setlist,
auto-naming it `"Setlist {count+1}"` when `name` is empty; returns its index. -/
def SetlistManager.CreateSetlist (m : SetlistManager) (name : String) :
    SetlistManager × Nat :=
  let finalName := if name = "" then "Setlist " ++ toString (m.m_setlists.length + 1) else name
  ({ m with m_setlists := m.m_setlists ++ [{ m_name := finalName, m_items := [] }] },
   m.m_setlists.length)

/-- `SetlistManager::Deactivate`. -/
def SetlistManager.Deactivate (m : SetlistManager) : SetlistManager :=
  { m with m_activeSetlistIndex := -1, m_activeItemIndex := -1 }

/-- `SetlistManager::RemoveSetlist(index)`: out of bounds fails; removing the
active setlist deactivates first; removing one before the active index
decrements the active index (both compared against the pre-removal index). -/
def SetlistManager.RemoveSetlist (m : SetlistManager) (index : Nat) :
    SetlistManager × Bool :=
  if m.m_setlists.length ≤ index then (m, false)
  else
    let m1 :=
      if (index : Int) = m.m_activeSetlistIndex then m.Deactivate
      else if (index : Int) < m.m_activeSetlistIndex then
        { m with m_activeSetlistIndex := m.m_activeSetlistIndex - 1 }
      else m
    ({ m1 with m_setlists := m1.m_setlists.eraseIdx index }, true)

/-- `SetlistManager::GetActiveSetlist` (`nullptr` becomes `none`). -/
def SetlistManager.GetActiveSetlist (m : SetlistManager) : Option Setlist :=
  if m.m_activeSetlistIndex < 0 ∨ (m.m_setlists.length : Int) ≤ m.m_activeSetlistIndex then
    none
  else some (m.m_setlists.getD m.m_activeSetlistIndex.toNat default)

/-- `SetlistManager::LoadActiveItem(viewer, itemIndex)`: validates the active
setlist and `itemIndex`, loads that item's path into the viewer, and commits
`m_activeItemIndex` only on success. -/
def SetlistManager.LoadActiveItem (env : Env) (m : SetlistManager) (v : PdfViewer)
    (itemIndex : Int) : SetlistManager × PdfViewer × Bool :=
  match m.GetActiveSetlist with
  | none => (m, v, false)
  | some setlist =>
    if itemIndex < 0 ∨ (setlist.GetItemCount : Int) ≤ itemIndex then (m, v, false)
    else
      let item := setlist.GetItems.getD itemIndex.toNat default
      match v.Load env item.fullPath with
      | (v2, true) => ({ m with m_activeItemIndex := itemIndex }, v2, true)
      | (v2, false) => (m, v2, false)

/-- `SetlistManager::ActivateSetlist(index, viewer)`: bounds check, empty-setlist
check, then tentatively sets the active indices and loads item 0, rolling the
indices back on load failure. -/
def SetlistManager.ActivateSetlist (env : Env) (m : SetlistManager) (index : Nat)
    (v : PdfViewer) : SetlistManager × PdfViewer × Bool :=
  if m.m_setlists.length ≤ index then (m, v, false)
  else
    let setlist := m.m_setlists.getD index default
    if setlist.GetItemCount = 0 then (m, v, false)
    else
      let previousSetlist := m.m_activeSetlistIndex
      let previousItem := m.m_activeItemIndex
      let m1 := { m with m_activeSetlistIndex := (index : Int), m_activeItemIndex := 0 }
      match m1.LoadActiveItem env v m1.m_activeItemIndex with
      | (m2, v2, true) => (m2, v2, true)
      | (m2, v2, false) =>
        ({ m2 with m_activeSetlistIndex := previousSetlist,
                   m_activeItemIndex := previousItem }, v2, false)

/-- `SetlistManager::JumpToItem(setlistIndex, itemIndex, viewer)`: same
tentative-set / rollback contract as `ActivateSetlist`, with `itemIndex`
validated against the target setlist's item count. -/
def SetlistManager.JumpToItem (env : Env) (m : SetlistManager)
    (setlistIndex itemIndex : Nat) (v : PdfViewer) : SetlistManager × PdfViewer × Bool :=
  if m.m_setlists.length ≤ setlistIndex then (m, v, false)
  else
    let setlist := m.m_setlists.getD setlistIndex default
    if setlist.GetItemCount ≤ itemIndex then (m, v, false)
    else
      let previousSetlist := m.m_activeSetlistIndex
      let previousItem := m.m_activeItemIndex
      let m1 := { m with m_activeSetlistIndex := (setlistIndex : Int),
                         m_activeItemIndex := (itemIndex : Int) }
      match m1.LoadActiveItem env v m1.m_activeItemIndex with
      | (m2, v2, true) => (m2, v2, true)
      | (m2, v2, false) =>
        ({ m2 with m_activeSetlistIndex := previousSetlist,
                   m_activeItemIndex := previousItem }, v2, false)

/-- `SetlistManager::Next(viewer)`: delegate to the viewer when it can advance
internally, else try to load item `m_activeItemIndex + 1`. -/
def SetlistManager.Next (env : Env) (m : SetlistManager) (v : PdfViewer) :
    SetlistManager × PdfViewer × Bool :=
  match m.GetActiveSetlist with
  | none => (m, v, false)
  | some setlist =>
    if v.IsLoaded && v.CanGoNext then (m, v.NextPage, true)
    else
      let nextItem := m.m_activeItemIndex + 1
      if nextItem < (setlist.GetItemCount : Int) then
        m.LoadActiveItem env v nextItem
      else (m, v, false)

/-- `SetlistManager::Previous(viewer)`: delegate to the viewer when it can go
back internally, else try to load item `m_activeItemIndex - 1`, landing on its
last page. -/
def SetlistManager.Previous (env : Env) (m : SetlistManager) (v : PdfViewer) :
    SetlistManager × PdfViewer × Bool :=
  match m.GetActiveSetlist with
  | none => (m, v, false)
  | some _setlist =>
    if v.IsLoaded && v.CanGoPrevious then (m, v.PreviousPage, true)
    else
      let prevItem := m.m_activeItemIndex - 1
      if 0 ≤ prevItem then
        match m.LoadActiveItem env v prevItem with
        | (m2, v2, false) => (m2, v2, false)
        | (m2, v2, true) =>
          let v3 := if 0 < v2.GetPageCount then v2.GoToPage (v2.GetPageCount - 1) else v2
          (m2, v3, true)
      else (m, v, false)

/-- `SetlistManager::CanGoNext(viewer)` (const): same checks as `Next` without
mutating anything. -/
def SetlistManager.CanGoNext (m : SetlistManager) (v : PdfViewer) : Bool :=
  match m.GetActiveSetlist with
  | none => false
  | some setlist =>
    if v.IsLoaded && v.CanGoNext then true
    else m.m_activeItemIndex + 1 < (setlist.GetItemCount : Int)

/-- `SetlistManager::CanGoPrevious(viewer)` (const): same checks as `Previous`
without mutating anything. -/
def SetlistManager.CanGoPrevious (m : SetlistManager) (v : PdfViewer) : Bool :=
  match m.GetActiveSetlist with
  | none => false
  | some _setlist =>
    if v.IsLoaded && v.CanGoPrevious then true
    else 0 ≤ m.m_activeItemIndex - 1

/-!
## Persistence (`SaveToFile` / `LoadFromFile`)

File contents are modelled as `List Char`. `splitLines` models the
`std::getline` loop: it splits at each `'\n'` (consuming it); a final line
without a trailing newline is still produced; an empty stream yields no lines.
-/

/-- `std::getline` applied repeatedly to a character stream: an empty stream
yields no lines; a `'\n'` ends the current line (consuming the `'\n'`); a final
line without a trailing newline is still produced. -/
def splitLines : List Char → List (List Char)
  | [] => []
  | '\n' :: rest => [] :: splitLines rest
  | c :: rest =>
    match splitLines rest with
    | [] => [[c]]
    | l :: ls => (c :: l) :: ls

/-- The character stream of one `ITEM:` line body (without the newline), as
written by `SetlistManager::SaveToFile`. -/
def itemLine (it : SetlistItem) : List Char :=
  "ITEM:".data ++ it.name.data ++ '\t' :: it.fullPath.data

/-- The lines written for one setlist by `SetlistManager::SaveToFile`:
a `SETLIST:` line followed by one `ITEM:` line per item. -/
def setlistLines (sl : Setlist) : List (List Char) :=
  ("SETLIST:".data ++ sl.m_name.data) :: sl.m_items.map itemLine

/-- Terminate each line with `'\n'` and concatenate, as the save stream does. -/
def joinLines (ls : List (List Char)) : List Char :=
  (ls.map (fun l => l ++ ['\n'])).flatten

/-- `SetlistManager::SaveToFile`, as the character stream it writes: the
`SETLISTS_V1` header, the lines of every setlist, then `END`. -/
def SetlistManager.SaveToFile (m : SetlistManager) : List Char :=
  joinLines ("SETLISTS_V1".data :: (m.m_setlists.map setlistLines).flatten ++ ["END".data])

/-- Apply `f` to the last element of the list (`current = &m_setlists.back()`
in the load loop); identity on the empty list. -/
def updateLast (f : Setlist → Setlist) : List Setlist → List Setlist
  | [] => []
  | [s] => [f s]
  | s :: rest => s :: updateLast f rest

/-- Handling of one `ITEM:` line body (after the `ITEM:` prefix) in
`SetlistManager::LoadFromFile`: split at the first tab; without a tab the line
is skipped; otherwise `AddItem(name, path)` on the current (last) setlist,
which itself drops an empty path. -/
def addItemToLast (acc : List Setlist) (rest : List Char) : List Setlist :=
  let name := rest.takeWhile (fun ch => ch ≠ '\t')
  match rest.dropWhile (fun ch => ch ≠ '\t') with
  | [] => acc
  | _ :: path => updateLast (fun sl => (sl.AddItem ⟨name⟩ ⟨path⟩).1) acc

/-- The parsing loop of `SetlistManager::LoadFromFile` over the lines after
the header: stop at `END`; a `SETLIST:` line starts a new setlist named by the
rest of the line; an `ITEM:` line attaches to the last setlist when one exists;
other lines are skipped. -/
def parseBody : List (List Char) → List Setlist → List Setlist
  | [], acc => acc
  | line :: rest, acc =>
    if line = "END".data then acc
    else if "SETLIST:".data.isPrefixOf line then
      parseBody rest (acc ++ [{ m_name := ⟨line.drop 8⟩, m_items := [] }])
    else if "ITEM:".data.isPrefixOf line ∧ acc ≠ [] then
      parseBody rest (addItemToLast acc (line.drop 5))
    else parseBody rest acc

/-- `SetlistManager::LoadFromFile` on the contents of a readable file: fails
with no state change unless the first line is exactly `SETLISTS_V1`; otherwise
deactivates, discards the collection, parses the remaining lines, and
reports success. -/
def SetlistManager.LoadFromFile (m : SetlistManager) (content : List Char) :
    SetlistManager × Bool :=
  match splitLines content with
  | [] => (m, false)
  | header :: rest =>
    if header = "SETLISTS_V1".data then
      ({ m.Deactivate with m_setlists := parseBody rest [] }, true)
    else (m, false)

/-!
## Helper lemmas
-/

/-- An in-bounds `getD` is the corresponding element. -/
theorem getD_eq_getElem_of_lt {α : Type _} (l : List α) (d : α) {i : Nat}
    (h : i < l.length) : l.getD i d = l[i] := by
  simp [List.getD_eq_getElem?_getD, List.getElem?_eq_getElem h]

/-- Any list is a permutation of an in-bounds element consed onto the list
with that element erased. -/
theorem perm_getElem_cons_eraseIdx {α : Type _} (l : List α) {i : Nat}
    (h : i < l.length) : l.Perm (l[i] :: l.eraseIdx i) := by
  conv_lhs => rw [← List.take_append_drop i l, ← List.getElem_cons_drop l i h]
  rw [List.eraseIdx_eq_take_drop_succ]
  exact List.perm_middle

theorem moveItem_length (l : List SetlistItem) {i j : Nat} (hi : i < l.length)
    (hj : j < l.length) :
    (List.insertIdx j (l.getD i default) (l.eraseIdx i)).length = l.length := by
  have he : (l.eraseIdx i).length = l.length - 1 := List.length_eraseIdx_of_lt hi
  have hj' : j ≤ (l.eraseIdx i).length := by omega
  rw [List.length_insertIdx j _ hj']
  omega

theorem moveItem_getElem (l : List SetlistItem) {i j : Nat} (hi : i < l.length)
    (hj : j < l.length) :
    (List.insertIdx j (l.getD i default) (l.eraseIdx i))[j]? = l[i]? := by
  have he : (l.eraseIdx i).length = l.length - 1 := List.length_eraseIdx_of_lt hi
  have hj' : j ≤ (l.eraseIdx i).length := by omega
  have hlen := moveItem_length l hi hj
  have hjlt : j < (List.insertIdx j (l.getD i default) (l.eraseIdx i)).length := by omega
  rw [List.getElem?_eq_getElem hjlt, List.getElem?_eq_getElem hi,
    List.getElem_insertIdx_self _ _ _ hj', getD_eq_getElem_of_lt l default hi]

theorem moveItem_perm (l : List SetlistItem) {i j : Nat} (hi : i < l.length)
    (hj : j < l.length) :
    (List.insertIdx j (l.getD i default) (l.eraseIdx i)).Perm l := by
  have he : (l.eraseIdx i).length = l.length - 1 := List.length_eraseIdx_of_lt hi
  have hj' : j ≤ (l.eraseIdx i).length := by omega
  refine (List.perm_insertIdx _ _ hj').trans ?_
  rw [getD_eq_getElem_of_lt l default hi]
  exact (perm_getElem_cons_eraseIdx l hi).symm

/-- C5: `MoveItem` fails (with no mutation) exactly when an index is out of
bounds, is a no-op success on equal in-bounds indices, and otherwise succeeds
preserving length and multiset, placing the item from `fromIndex` at
`toIndex`, and preserving the relative order of all other items (erasing the
moved item from both sides yields identical lists). -/
theorem moveItem_spec (s : Setlist) (fromIndex toIndex : Nat) :
    ((s.MoveItem fromIndex toIndex).2 = false ↔
      (s.m_items.length ≤ fromIndex ∨ s.m_items.length ≤ toIndex))
    ∧ ((s.m_items.length ≤ fromIndex ∨ s.m_items.length ≤ toIndex) →
        (s.MoveItem fromIndex toIndex).1 = s)
    ∧ (fromIndex = toIndex → fromIndex < s.m_items.length →
        s.MoveItem fromIndex toIndex = (s, true))
    ∧ (fromIndex < s.m_items.length → toIndex < s.m_items.length →
        (s.MoveItem fromIndex toIndex).2 = true
        ∧ (s.MoveItem fromIndex toIndex).1.m_items.length = s.m_items.length
        ∧ (s.MoveItem fromIndex toIndex).1.m_items.Perm s.m_items
        ∧ (s.MoveItem fromIndex toIndex).1.m_items[toIndex]? = s.m_items[fromIndex]?
        ∧ (s.MoveItem fromIndex toIndex).1.m_items.eraseIdx toIndex =
            s.m_items.eraseIdx fromIndex) := by
  unfold Setlist.MoveItem
  by_cases hoob : s.m_items.length ≤ fromIndex ∨ s.m_items.length ≤ toIndex
  · simp only [if_pos hoob]
    refine ⟨iff_of_true (by trivial) hoob, fun _ => by trivial, ?_, ?_⟩
    · intro heq hlt
      exact absurd hoob (by omega)
    · intro h1 h2
      exact absurd hoob (by omega)
  · simp only [if_neg hoob]
    push_neg at hoob
    obtain ⟨hi, hj⟩ := hoob
    by_cases heq : fromIndex = toIndex
    · subst heq
      simp only [if_pos rfl]
      refine ⟨iff_of_false (by simp) (by omega), fun h => by trivial, fun _ _ => by trivial, fun _ _ => ?_⟩
      exact ⟨by trivial, by trivial, List.Perm.refl _, by trivial, by trivial⟩
    · simp only [if_neg heq]
      refine ⟨iff_of_false (by simp) (by omega), fun h => absurd h (by omega),
        fun h => absurd h heq, fun _ _ => ?_⟩
      exact ⟨by trivial, moveItem_length s.m_items hi hj, moveItem_perm s.m_items hi hj,
        moveItem_getElem s.m_items hi hj,
        by simpa using (List.eraseIdx_insertIdx toIndex (s.m_items.eraseIdx fromIndex))⟩

/-- C5 witness: the spec's scenario at concrete indices. -/
theorem moveItem_spec_witness :
    ((Setlist.mk "s" [⟨"0","P0"⟩, ⟨"1","P1"⟩, ⟨"2","P2"⟩]).MoveItem 0 2).2 = true
    ∧ ((Setlist.mk "s" [⟨"0","P0"⟩, ⟨"1","P1"⟩, ⟨"2","P2"⟩]).MoveItem 0 2).1.m_items[2]? =
        some ⟨"0","P0"⟩ := by
  have h := (moveItem_spec (Setlist.mk "s" [⟨"0","P0"⟩, ⟨"1","P1"⟩, ⟨"2","P2"⟩]) 0 2).2.2.2
    (by decide) (by decide)
  exact ⟨h.1, h.2.2.2.1.trans (by decide)⟩

/-- C6: `RemoveSetlist` fails exactly on an out-of-bounds index; removing the
active setlist deactivates the manager; removing a setlist strictly before the
active one decrements the active index (compared against the pre-removal
active index), which then still denotes the same logical setlist. -/
theorem removeSetlist_spec (m : SetlistManager) (index : Nat) :
    ((m.RemoveSetlist index).2 = false ↔ m.m_setlists.length ≤ index)
    ∧ (index < m.m_setlists.length → (index : Int) = m.m_activeSetlistIndex →
        (m.RemoveSetlist index).1.m_activeSetlistIndex = -1
        ∧ (m.RemoveSetlist index).1.m_activeItemIndex = -1)
    ∧ (index < m.m_setlists.length → (index : Int) < m.m_activeSetlistIndex →
        (m.RemoveSetlist index).1.m_activeSetlistIndex = m.m_activeSetlistIndex - 1
        ∧ (m.RemoveSetlist index).1.m_setlists[(m.m_activeSetlistIndex - 1).toNat]? =
            m.m_setlists[m.m_activeSetlistIndex.toNat]?) := by
  unfold SetlistManager.RemoveSetlist
  by_cases hoob : m.m_setlists.length ≤ index
  · simp only [if_pos hoob]
    exact ⟨iff_of_true (by trivial) hoob, fun h _ => absurd hoob (by omega),
      fun h _ => absurd hoob (by omega)⟩
  · simp only [if_neg hoob]
    refine ⟨iff_of_false (by simp) hoob, ?_, ?_⟩
    · intro _ heq
      simp only [if_pos heq]
      exact ⟨by trivial, by trivial⟩
    · intro _ hlt
      have hne : ¬((index : Int) = m.m_activeSetlistIndex) := by omega
      simp only [if_neg hne, if_pos hlt]
      refine ⟨by trivial, ?_⟩
      have hidx : index ≤ (m.m_activeSetlistIndex - 1).toNat := by omega
      rw [List.getElem?_eraseIdx_of_ge _ _ _ hidx]
      congr 1
      omega

/-- C6 witness: removing setlist 0 while setlist 1 is active. -/
theorem removeSetlist_spec_witness :
    (((SetlistManager.mk [⟨"a", []⟩, ⟨"b", [⟨"x","X"⟩]⟩] 1 0).RemoveSetlist 0).1.m_activeSetlistIndex = 0
      ∧ ((SetlistManager.mk [⟨"a", []⟩, ⟨"b", [⟨"x","X"⟩]⟩] 1 0).RemoveSetlist 0).1.m_setlists[(0 : Nat)]? =
          some ⟨"b", [⟨"x","X"⟩]⟩)
    ∧ (((SetlistManager.mk [⟨"a", []⟩, ⟨"b", [⟨"x","X"⟩]⟩] 1 0).RemoveSetlist 1).1.m_activeSetlistIndex = -1) := by
  constructor
  · have h := (removeSetlist_spec (SetlistManager.mk [⟨"a", []⟩, ⟨"b", [⟨"x","X"⟩]⟩] 1 0) 0).2.2
      (by decide) (by decide)
    exact ⟨h.1, h.2.trans (by decide)⟩
  · exact ((removeSetlist_spec (SetlistManager.mk [⟨"a", []⟩, ⟨"b", [⟨"x","X"⟩]⟩] 1 0) 1).2.1
      (by decide) (by decide)).1

/-- C7: loading from a readable file whose first line is not exactly
`SETLISTS_V1` returns `false` and leaves the manager completely unchanged. -/
theorem loadFromFile_wrong_header (m : SetlistManager) (content : List Char)
    (h : (splitLines content).head? ≠ some "SETLISTS_V1".data) :
    m.LoadFromFile content = (m, false) := by
  unfold SetlistManager.LoadFromFile
  cases hs : splitLines content with
  | nil => rfl
  | cons header rest =>
    rw [hs] at h
    simp only [List.head?_cons, ne_eq, Option.some.injEq] at h
    simp only [if_neg h]

/-- C7 witness: a file whose first line is `WRONG`. -/
theorem loadFromFile_wrong_header_witness :
    (SetlistManager.mk [⟨"keep", [⟨"x","X"⟩]⟩] 0 0).LoadFromFile "WRONG\nSETLIST:a\nEND\n".data =
      (SetlistManager.mk [⟨"keep", [⟨"x","X"⟩]⟩] 0 0, false) :=
  loadFromFile_wrong_header _ _ (by decide)

/-- C8 counterexample: when a different (non-empty) setlist is active,
`ActivateSetlist` on an in-bounds empty setlist fails but the manager stays
active, so the call does not leave `IsActive()` false. -/
theorem activate_empty_counterexample :
    ((SetlistManager.mk [⟨"s1", [⟨"a","A"⟩]⟩, ⟨"s2", []⟩] 0 0).ActivateSetlist
        (fun _ => none) 1 ⟨false, 0, 0⟩).2.2 = false
    ∧ ((SetlistManager.mk [⟨"s1", [⟨"a","A"⟩]⟩, ⟨"s2", []⟩] 0 0).ActivateSetlist
        (fun _ => none) 1 ⟨false, 0, 0⟩).1.IsActive = true := by
  exact ⟨rfl, rfl⟩

/-- C8 (amended): `ActivateSetlist` on an in-bounds empty setlist always fails
and leaves the manager completely unchanged — in particular `IsActive()` keeps
its pre-call value, so it is false afterwards whenever the manager was not
already active before the call. -/
theorem activate_empty_setlist (env : Env) (m : SetlistManager) (i : Nat)
    (v : PdfViewer) (sl : Setlist) (hget : m.m_setlists[i]? = some sl)
    (hempty : sl.GetItemCount = 0) :
    m.ActivateSetlist env i v = (m, v, false)
    ∧ (m.IsActive = false → (m.ActivateSetlist env i v).1.IsActive = false) := by
  have hi : i < m.m_setlists.length := by
    by_contra hc
    rw [List.getElem?_eq_none (by omega)] at hget
    exact Option.noConfusion hget
  have hnoob : ¬ (m.m_setlists.length ≤ i) := by omega
  have hd : (m.m_setlists.getD i default).GetItemCount = 0 := by
    rw [List.getD_eq_getElem?_getD, hget]
    exact hempty
  have heq : m.ActivateSetlist env i v = (m, v, false) := by
    unfold SetlistManager.ActivateSetlist
    simp only [if_neg hnoob, hd, if_true]
  exact ⟨heq, fun hinact => by rw [heq]; exact hinact⟩

/-- C8 witness: activating an empty setlist from the inactive state. -/
theorem activate_empty_setlist_witness :
    (SetlistManager.mk [⟨"s2", []⟩] (-1) (-1)).ActivateSetlist (fun _ => none) 0 ⟨false, 0, 0⟩ =
      (SetlistManager.mk [⟨"s2", []⟩] (-1) (-1), ⟨false, 0, 0⟩, false)
    ∧ ((SetlistManager.mk [⟨"s2", []⟩] (-1) (-1)).ActivateSetlist
        (fun _ => none) 0 ⟨false, 0, 0⟩).1.IsActive = false := by
  have h := activate_empty_setlist (fun _ => none) (SetlistManager.mk [⟨"s2", []⟩] (-1) (-1))
    0 ⟨false, 0, 0⟩ ⟨"s2", []⟩ (by decide) (by decide)
  exact ⟨h.1, h.2 (by decide)⟩

/-- C10: for any readable file whose first line is exactly `SETLISTS_V1`,
`LoadFromFile` returns true whatever the remaining content is, the previous
collection is discarded (the resulting collection does not depend on the prior
manager state, and may be empty), and the active session is deactivated. -/
theorem loadFromFile_good_header (m : SetlistManager) (content : List Char)
    (rest : List (List Char))
    (h : splitLines content = "SETLISTS_V1".data :: rest) :
    m.LoadFromFile content =
      ({ m_setlists := parseBody rest [], m_activeSetlistIndex := -1,
         m_activeItemIndex := -1 }, true)
    ∧ ∀ m2 : SetlistManager,
        (m2.LoadFromFile content).1.m_setlists = (m.LoadFromFile content).1.m_setlists := by
  have key : ∀ mm : SetlistManager, mm.LoadFromFile content =
      ({ m_setlists := parseBody rest [], m_activeSetlistIndex := -1,
         m_activeItemIndex := -1 }, true) := by
    intro mm
    unfold SetlistManager.LoadFromFile
    rw [h]
    rfl
  exact ⟨key m, fun m2 => by rw [key m2, key m]⟩

/-- C10 witness: a file containing only the header. -/
theorem loadFromFile_good_header_witness :
    (SetlistManager.mk [⟨"old", [⟨"x","X"⟩]⟩] 0 0).LoadFromFile "SETLISTS_V1\n".data =
      ({ m_setlists := parseBody [] [], m_activeSetlistIndex := -1,
         m_activeItemIndex := -1 }, true) :=
  (loadFromFile_good_header (SetlistManager.mk [⟨"old", [⟨"x","X"⟩]⟩] 0 0)
    "SETLISTS_V1\n".data [] (by decide)).1

/-!
## Characterization helpers for activation / navigation
-/

/-- `GetActiveSetlist` after tentatively setting an in-bounds active index. -/
theorem getActiveSetlist_set (m : SetlistManager) (si : Nat) (x : Int)
    (h : si < m.m_setlists.length) :
    ({ m with m_activeSetlistIndex := (si : Int), m_activeItemIndex := x }
      : SetlistManager).GetActiveSetlist = some (m.m_setlists.getD si default) := by
  simp only [SetlistManager.GetActiveSetlist]
  rw [if_neg (by push_neg; constructor <;> omega)]
  simp

/-- `LoadActiveItem` under a valid active setlist and in-range item index:
it succeeds or fails exactly with the environment's load of that item's path. -/
theorem loadActiveItem_eq (env : Env) (m : SetlistManager) (v : PdfViewer)
    (idx : Int) (sl : Setlist) (hact : m.GetActiveSetlist = some sl)
    (h0 : 0 ≤ idx) (hlt : idx < (sl.GetItemCount : Int)) :
    m.LoadActiveItem env v idx =
      match env ((sl.GetItems.getD idx.toNat default).fullPath) with
      | none => (m, v.Close, false)
      | some pc => ({ m with m_activeItemIndex := idx },
                    { m_document := true, m_currentPage := 0,
                      m_pageCount := (pc : Int) }, true) := by
  unfold SetlistManager.LoadActiveItem
  rw [hact]
  dsimp only
  rw [if_neg (by push_neg; constructor <;> omega)]
  unfold PdfViewer.Load
  cases env ((sl.GetItems.getD idx.toNat default).fullPath) <;> rfl

/-- `LoadActiveItem` never touches the setlist collection. -/
theorem loadActiveItem_setlists (env : Env) (m : SetlistManager) (v : PdfViewer)
    (idx : Int) : (m.LoadActiveItem env v idx).1.m_setlists = m.m_setlists := by
  unfold SetlistManager.LoadActiveItem
  cases m.GetActiveSetlist with
  | none => rfl
  | some sl =>
    dsimp only
    split
    · rfl
    · rcases hload : PdfViewer.Load env v (sl.GetItems.getD idx.toNat default).fullPath
        with ⟨v2, b⟩
      cases b <;> simp [hload]

/-- `ActivateSetlist` on an out-of-bounds index fails with no state change. -/
theorem activateSetlist_fail_oob (env : Env) (m : SetlistManager) (index : Nat)
    (v : PdfViewer) (hoob : m.m_setlists.length ≤ index) :
    m.ActivateSetlist env index v = (m, v, false) := by
  unfold SetlistManager.ActivateSetlist
  rw [if_pos hoob]

/-- `ActivateSetlist` on an in-bounds empty setlist fails with no state change. -/
theorem activateSetlist_fail_empty (env : Env) (m : SetlistManager) (index : Nat)
    (v : PdfViewer) (hi : index < m.m_setlists.length)
    (he : (m.m_setlists.getD index default).GetItemCount = 0) :
    m.ActivateSetlist env index v = (m, v, false) := by
  unfold SetlistManager.ActivateSetlist
  simp only [if_neg (by omega : ¬ m.m_setlists.length ≤ index), he, if_true]

/-- `ActivateSetlist` on an in-bounds non-empty setlist: the outcome is decided
by loading item 0; on load failure the pre-call indices are restored. -/
theorem activateSetlist_eq_of_valid (env : Env) (m : SetlistManager) (index : Nat)
    (v : PdfViewer) (hi : index < m.m_setlists.length)
    (hne : (m.m_setlists.getD index default).GetItemCount ≠ 0) :
    m.ActivateSetlist env index v =
      match env (((m.m_setlists.getD index default).GetItems.getD 0 default).fullPath) with
      | none => (m, v.Close, false)
      | some pc => ({ m with m_activeSetlistIndex := (index : Int), m_activeItemIndex := 0 },
                    { m_document := true, m_currentPage := 0,
                      m_pageCount := (pc : Int) }, true) := by
  unfold SetlistManager.ActivateSetlist
  rw [if_neg (by omega : ¬ m.m_setlists.length ≤ index)]
  simp only [if_neg hne]
  rw [loadActiveItem_eq env _ v 0 (m.m_setlists.getD index default)
    (getActiveSetlist_set m index 0 hi) (by omega) (by omega)]
  rw [show Int.toNat 0 = 0 from rfl]
  cases env (((m.m_setlists.getD index default).GetItems.getD 0 default).fullPath) <;> rfl

/-- `JumpToItem` on an out-of-bounds setlist index fails with no state change. -/
theorem jumpToItem_fail_oob (env : Env) (m : SetlistManager) (si ii : Nat)
    (v : PdfViewer) (hoob : m.m_setlists.length ≤ si) :
    m.JumpToItem env si ii v = (m, v, false) := by
  unfold SetlistManager.JumpToItem
  rw [if_pos hoob]

/-- `JumpToItem` with an item index out of range for the target setlist fails
with no state change. -/
theorem jumpToItem_fail_item_oob (env : Env) (m : SetlistManager) (si ii : Nat)
    (v : PdfViewer) (hi : si < m.m_setlists.length)
    (he : (m.m_setlists.getD si default).GetItemCount ≤ ii) :
    m.JumpToItem env si ii v = (m, v, false) := by
  unfold SetlistManager.JumpToItem
  rw [if_neg (by omega : ¬ m.m_setlists.length ≤ si)]
  dsimp only
  rw [if_pos he]

/-- `JumpToItem` with valid indices: the outcome is decided by loading the
target item; on load failure the pre-call indices are restored. -/
theorem jumpToItem_eq_of_valid (env : Env) (m : SetlistManager) (si ii : Nat)
    (v : PdfViewer) (hi : si < m.m_setlists.length)
    (hii : ii < (m.m_setlists.getD si default).GetItemCount) :
    m.JumpToItem env si ii v =
      match env (((m.m_setlists.getD si default).GetItems.getD ii default).fullPath) with
      | none => (m, v.Close, false)
      | some pc => ({ m with m_activeSetlistIndex := (si : Int),
                             m_activeItemIndex := (ii : Int) },
                    { m_document := true, m_currentPage := 0,
                      m_pageCount := (pc : Int) }, true) := by
  unfold SetlistManager.JumpToItem
  rw [if_neg (by omega : ¬ m.m_setlists.length ≤ si)]
  dsimp only
  rw [if_neg (by omega : ¬ (m.m_setlists.getD si default).GetItemCount ≤ ii)]
  rw [loadActiveItem_eq env _ v (ii : Int) (m.m_setlists.getD si default)
    (getActiveSetlist_set m si (ii : Int) hi) (by omega) (by omega)]
  rw [show ((ii : Int)).toNat = ii from Int.toNat_ofNat ii]
  cases env (((m.m_setlists.getD si default).GetItems.getD ii default).fullPath) <;> rfl

/-- C3: `ActivateSetlist(i, viewer)` fails exactly when `i` is out of bounds,
the target setlist is empty, or loading its item 0 fails; `JumpToItem(j, k,
viewer)` fails exactly when `j` is out of bounds, `k` is not below setlist
`j`'s item count, or loading that item fails; and on every failure the
manager's state (in particular `activeSetlistIndex` / `activeItemIndex`) is
exactly its pre-call value, whatever session was active before. -/
theorem activate_jump_fail_rollback (env : Env) (m : SetlistManager) (v : PdfViewer) :
    (∀ index : Nat,
      ((m.ActivateSetlist env index v).2.2 = false ↔
        (m.m_setlists.length ≤ index
          ∨ ∃ sl, m.m_setlists[index]? = some sl ∧
              (sl.GetItemCount = 0 ∨ env ((sl.GetItems.getD 0 default).fullPath) = none)))
      ∧ ((m.ActivateSetlist env index v).2.2 = false →
          (m.ActivateSetlist env index v).1 = m))
    ∧ (∀ si ii : Nat,
      ((m.JumpToItem env si ii v).2.2 = false ↔
        (m.m_setlists.length ≤ si
          ∨ ∃ sl, m.m_setlists[si]? = some sl ∧
              (sl.GetItemCount ≤ ii ∨ env ((sl.GetItems.getD ii default).fullPath) = none)))
      ∧ ((m.JumpToItem env si ii v).2.2 = false →
          (m.JumpToItem env si ii v).1 = m)) := by
  constructor
  · intro index
    by_cases hoob : m.m_setlists.length ≤ index
    · rw [activateSetlist_fail_oob env m index v hoob]
      exact ⟨iff_of_true rfl (Or.inl hoob), fun _ => rfl⟩
    · push_neg at hoob
      have hsl : m.m_setlists[index]? = some (m.m_setlists.getD index default) := by
        rw [List.getElem?_eq_getElem hoob, getD_eq_getElem_of_lt _ _ hoob]
      by_cases hempty : (m.m_setlists.getD index default).GetItemCount = 0
      · rw [activateSetlist_fail_empty env m index v hoob hempty]
        exact ⟨iff_of_true rfl (Or.inr ⟨_, hsl, Or.inl hempty⟩), fun _ => rfl⟩
      · rw [activateSetlist_eq_of_valid env m index v hoob hempty]
        cases henv : env (((m.m_setlists.getD index default).GetItems.getD 0 default).fullPath) with
        | none =>
          exact ⟨iff_of_true rfl (Or.inr ⟨_, hsl, Or.inr henv⟩), fun _ => rfl⟩
        | some pc =>
          refine ⟨iff_of_false (by simp) ?_, fun hfalse => absurd hfalse (by simp)⟩
          rintro (h | ⟨sl, hsl2, hbad⟩)
          · omega
          · rw [hsl] at hsl2
            cases hsl2
            rcases hbad with hb | hb
            · exact hempty hb
            · rw [henv] at hb
              exact Option.noConfusion hb
  · intro si ii
    by_cases hoob : m.m_setlists.length ≤ si
    · rw [jumpToItem_fail_oob env m si ii v hoob]
      exact ⟨iff_of_true rfl (Or.inl hoob), fun _ => rfl⟩
    · push_neg at hoob
      have hsl : m.m_setlists[si]? = some (m.m_setlists.getD si default) := by
        rw [List.getElem?_eq_getElem hoob, getD_eq_getElem_of_lt _ _ hoob]
      by_cases hio : (m.m_setlists.getD si default).GetItemCount ≤ ii
      · rw [jumpToItem_fail_item_oob env m si ii v hoob hio]
        exact ⟨iff_of_true rfl (Or.inr ⟨_, hsl, Or.inl hio⟩), fun _ => rfl⟩
      · push_neg at hio
        rw [jumpToItem_eq_of_valid env m si ii v hoob hio]
        cases henv : env (((m.m_setlists.getD si default).GetItems.getD ii default).fullPath) with
        | none =>
          exact ⟨iff_of_true rfl (Or.inr ⟨_, hsl, Or.inr henv⟩), fun _ => rfl⟩
        | some pc =>
          refine ⟨iff_of_false (by simp) ?_, fun hfalse => absurd hfalse (by simp)⟩
          rintro (h | ⟨sl, hsl2, hbad⟩)
          · omega
          · rw [hsl] at hsl2
            cases hsl2
            rcases hbad with hb | hb
            · omega
            · rw [henv] at hb
              exact Option.noConfusion hb

/-- C3 witness: a failing load (no file loadable) rolls the active session
back to the previously active setlist. -/
theorem activate_jump_fail_rollback_witness :
    ((SetlistManager.mk [⟨"s1", [⟨"a","A"⟩]⟩, ⟨"s2", [⟨"b","B"⟩]⟩] 0 0).ActivateSetlist
        (fun _ => none) 1 ⟨true, 0, 3⟩).2.2 = false
    ∧ ((SetlistManager.mk [⟨"s1", [⟨"a","A"⟩]⟩, ⟨"s2", [⟨"b","B"⟩]⟩] 0 0).ActivateSetlist
        (fun _ => none) 1 ⟨true, 0, 3⟩).1 =
        SetlistManager.mk [⟨"s1", [⟨"a","A"⟩]⟩, ⟨"s2", [⟨"b","B"⟩]⟩] 0 0
    ∧ ((SetlistManager.mk [⟨"s1", [⟨"a","A"⟩]⟩, ⟨"s2", [⟨"b","B"⟩]⟩] 0 0).JumpToItem
        (fun _ => none) 1 0 ⟨true, 0, 3⟩).1 =
        SetlistManager.mk [⟨"s1", [⟨"a","A"⟩]⟩, ⟨"s2", [⟨"b","B"⟩]⟩] 0 0 := by
  have h := activate_jump_fail_rollback (fun _ => none)
    (SetlistManager.mk [⟨"s1", [⟨"a","A"⟩]⟩, ⟨"s2", [⟨"b","B"⟩]⟩] 0 0) ⟨true, 0, 3⟩
  have h1 := (h.1 1).1.mpr (Or.inr ⟨⟨"s2", [⟨"b","B"⟩]⟩, by decide, Or.inr rfl⟩)
  have h2 := (h.2 1 0).1.mpr (Or.inr ⟨⟨"s2", [⟨"b","B"⟩]⟩, by decide, Or.inr rfl⟩)
  exact ⟨h1, (h.1 1).2 h1, (h.2 1 0).2 h2⟩

/-- A negative active index means no active setlist. -/
theorem getActiveSetlist_none_of_neg (m : SetlistManager)
    (h : m.m_activeSetlistIndex < 0) : m.GetActiveSetlist = none := by
  unfold SetlistManager.GetActiveSetlist
  rw [if_pos (Or.inl h)]

/-- Landing on the last page: `GoToPage(pageCount - 1)` from page 0 of a
freshly loaded non-empty document ends at `pageCount - 1` (including the
one-page case, where `GoToPage` is a no-op). -/
theorem goToPage_last (pc : Nat) (hpc : 0 < pc) :
    (PdfViewer.mk true 0 (pc : Int)).GoToPage ((pc : Int) - 1) =
      PdfViewer.mk true ((pc : Int) - 1) (pc : Int) := by
  unfold PdfViewer.GoToPage
  by_cases h : ((pc : Int) - 1) = 0
  · rw [if_neg (by simp [h])]
    rw [show ((pc : Int) - 1) = 0 from h]
  · rw [if_pos ⟨by omega, by dsimp only; omega, by dsimp only; exact h⟩]

/-- C1: for an active manager, `Next`/`Previous` first delegate to the viewer
when it is loaded and can advance (resp. retreat) internally; otherwise they
load the item at `activeItemIndex + 1` (resp. `- 1`) when that index is in
bounds and the load succeeds, reporting success — `Next` leaving the new
document at its first page (page 0) and `Previous` setting the page cursor to
the new document's last page (`pageCount - 1`); when the adjacent index is out
of bounds they report failure with no state change; and both fail immediately
with no state change when the manager is `Inactive`. -/
theorem next_previous_traversal (env : Env) (m : SetlistManager) (v : PdfViewer) :
    (m.IsActive = false →
      m.Next env v = (m, v, false) ∧ m.Previous env v = (m, v, false))
    ∧ (∀ sl, m.GetActiveSetlist = some sl →
        ((v.IsLoaded && v.CanGoNext) = true → m.Next env v = (m, v.NextPage, true))
        ∧ ((v.IsLoaded && v.CanGoNext) = false →
            (∀ pc, 0 ≤ m.m_activeItemIndex + 1 →
              m.m_activeItemIndex + 1 < (sl.GetItemCount : Int) →
              env ((sl.GetItems.getD (m.m_activeItemIndex + 1).toNat default).fullPath) = some pc →
              m.Next env v =
                ({ m with m_activeItemIndex := m.m_activeItemIndex + 1 },
                 { m_document := true, m_currentPage := 0, m_pageCount := (pc : Int) }, true))
            ∧ ((sl.GetItemCount : Int) ≤ m.m_activeItemIndex + 1 →
                m.Next env v = (m, v, false)))
        ∧ ((v.IsLoaded && v.CanGoPrevious) = true →
            m.Previous env v = (m, v.PreviousPage, true))
        ∧ ((v.IsLoaded && v.CanGoPrevious) = false →
            (∀ pc, 0 ≤ m.m_activeItemIndex - 1 →
              m.m_activeItemIndex - 1 < (sl.GetItemCount : Int) →
              env ((sl.GetItems.getD (m.m_activeItemIndex - 1).toNat default).fullPath) = some pc →
              0 < pc →
              m.Previous env v =
                ({ m with m_activeItemIndex := m.m_activeItemIndex - 1 },
                 { m_document := true, m_currentPage := (pc : Int) - 1,
                   m_pageCount := (pc : Int) }, true))
            ∧ (m.m_activeItemIndex - 1 < 0 →
                m.Previous env v = (m, v, false)))) := by
  constructor
  · intro hinact
    have hneg : m.m_activeSetlistIndex < 0 := by
      simp only [SetlistManager.IsActive, decide_eq_false_iff_not, not_le] at hinact
      exact hinact
    have hnone := getActiveSetlist_none_of_neg m hneg
    constructor
    · unfold SetlistManager.Next
      rw [hnone]
    · unfold SetlistManager.Previous
      rw [hnone]
  · intro sl hact
    refine ⟨?_, fun hnd => ⟨?_, ?_⟩, ?_, fun hnp => ⟨?_, ?_⟩⟩
    · intro hdel
      unfold SetlistManager.Next
      rw [hact]
      dsimp only
      rw [if_pos hdel]
    · intro pc h0 hlt henv
      unfold SetlistManager.Next
      rw [hact]
      dsimp only
      rw [if_neg (by simp [hnd])]
      rw [if_pos hlt]
      rw [loadActiveItem_eq env m v (m.m_activeItemIndex + 1) sl hact h0 hlt, henv]
    · intro hge
      unfold SetlistManager.Next
      rw [hact]
      dsimp only
      rw [if_neg (by simp [hnd]), if_neg (by omega)]
    · intro hdel
      unfold SetlistManager.Previous
      rw [hact]
      dsimp only
      rw [if_pos hdel]
    · intro pc h0 hlt henv hpc
      unfold SetlistManager.Previous
      rw [hact]
      dsimp only
      rw [if_neg (by simp [hnp])]
      rw [if_pos h0]
      rw [loadActiveItem_eq env m v (m.m_activeItemIndex - 1) sl hact h0 hlt, henv]
      dsimp only [PdfViewer.GetPageCount]
      rw [if_pos (by omega : (0 : Int) < (pc : Int))]
      rw [goToPage_last pc hpc]
    · intro hlt0
      unfold SetlistManager.Previous
      rw [hact]
      dsimp only
      rw [if_neg (by simp [hnp]), if_neg (by omega)]

/-- C1 witness: the spec's scenario — setlist `[A (3 pages), B (2 pages)]`;
from the last page of `A`, `Next` crosses to `B` at page 0; from page 0 of
`B`, `Previous` crosses back to `A` landing on its last page (page 2); and an
inactive manager fails immediately. -/
theorem next_previous_traversal_witness :
    ((SetlistManager.mk [⟨"s", [⟨"a","A"⟩, ⟨"b","B"⟩]⟩] 0 0).Next
        (fun p => if p = "A" then some 3 else if p = "B" then some 2 else none)
        ⟨true, 2, 3⟩ =
      (SetlistManager.mk [⟨"s", [⟨"a","A"⟩, ⟨"b","B"⟩]⟩] 0 1, ⟨true, 0, 2⟩, true))
    ∧ ((SetlistManager.mk [⟨"s", [⟨"a","A"⟩, ⟨"b","B"⟩]⟩] 0 1).Previous
        (fun p => if p = "A" then some 3 else if p = "B" then some 2 else none)
        ⟨true, 0, 2⟩ =
      (SetlistManager.mk [⟨"s", [⟨"a","A"⟩, ⟨"b","B"⟩]⟩] 0 0, ⟨true, 2, 3⟩, true))
    ∧ ((SetlistManager.mk [] (-1) (-1)).Next
        (fun p => if p = "A" then some 3 else if p = "B" then some 2 else none)
        ⟨true, 0, 3⟩ =
      (SetlistManager.mk [] (-1) (-1), ⟨true, 0, 3⟩, false)) := by
  refine ⟨?_, ?_, ?_⟩
  · have h := next_previous_traversal
      (fun p => if p = "A" then some 3 else if p = "B" then some 2 else none)
      (SetlistManager.mk [⟨"s", [⟨"a","A"⟩, ⟨"b","B"⟩]⟩] 0 0) ⟨true, 2, 3⟩
    exact ((h.2 ⟨"s", [⟨"a","A"⟩, ⟨"b","B"⟩]⟩ (by decide)).2.1 (by decide)).1 2
      (by decide) (by decide) (by decide)
  · have h := next_previous_traversal
      (fun p => if p = "A" then some 3 else if p = "B" then some 2 else none)
      (SetlistManager.mk [⟨"s", [⟨"a","A"⟩, ⟨"b","B"⟩]⟩] 0 1) ⟨true, 0, 2⟩
    exact ((h.2 ⟨"s", [⟨"a","A"⟩, ⟨"b","B"⟩]⟩ (by decide)).2.2.2 (by decide)).1 3
      (by decide) (by decide) (by decide) (by decide)
  · have h := next_previous_traversal
      (fun p => if p = "A" then some 3 else if p = "B" then some 2 else none)
      (SetlistManager.mk [] (-1) (-1)) ⟨true, 0, 3⟩
    exact (h.1 (by decide)).1

/-- C2 counterexample: with an active two-item setlist at item 0, an unloaded
viewer, and an environment in which the next item's load fails, `CanGoNext`
returns true but `Next` returns false — the predicate does not agree with the
action in every state. -/
theorem canGo_agreement_counterexample :
    (SetlistManager.mk [⟨"s", [⟨"a","A"⟩, ⟨"b","B"⟩]⟩] 0 0).CanGoNext ⟨false, 0, 0⟩ = true
    ∧ ((SetlistManager.mk [⟨"s", [⟨"a","A"⟩, ⟨"b","B"⟩]⟩] 0 0).Next
        (fun _ => none) ⟨false, 0, 0⟩).2.2 = false := by
  exact ⟨rfl, rfl⟩

/-- C2 (amended): `CanGoNext`/`CanGoPrevious` are pure predicates of the
manager and viewer state (they mutate nothing, being functions to `Bool`), and
they agree exactly with the success of `Next`/`Previous` on every manager
state satisfying the active-item invariant of spec §3, provided the
environment can load every path (the predicates mirror the delegation and
bounds checks but cannot anticipate a load failure). -/
theorem canGo_agrees_with_action (env : Env) (m : SetlistManager) (v : PdfViewer)
    (hwf : ∀ sl, m.GetActiveSetlist = some sl →
      0 ≤ m.m_activeItemIndex ∧ m.m_activeItemIndex < (sl.GetItemCount : Int))
    (hload : ∀ p, env p ≠ none) :
    m.CanGoNext v = (m.Next env v).2.2
    ∧ m.CanGoPrevious v = (m.Previous env v).2.2 := by
  cases hact : m.GetActiveSetlist with
  | none =>
    constructor
    · unfold SetlistManager.CanGoNext SetlistManager.Next
      rw [hact]
    · unfold SetlistManager.CanGoPrevious SetlistManager.Previous
      rw [hact]
  | some sl =>
    obtain ⟨h0, hlt⟩ := hwf sl hact
    constructor
    · unfold SetlistManager.CanGoNext SetlistManager.Next
      rw [hact]
      dsimp only
      by_cases hdel : (v.IsLoaded && v.CanGoNext) = true
      · rw [if_pos hdel, if_pos hdel]
      · rw [if_neg hdel, if_neg hdel]
        by_cases hb : m.m_activeItemIndex + 1 < (sl.GetItemCount : Int)
        · rw [if_pos hb]
          rw [loadActiveItem_eq env m v (m.m_activeItemIndex + 1) sl hact (by omega) hb]
          cases henv : env ((sl.GetItems.getD (m.m_activeItemIndex + 1).toNat default).fullPath) with
          | none => exact absurd henv (hload _)
          | some pc => simp [hb]
        · rw [if_neg hb]
          simp [hb]
    · unfold SetlistManager.CanGoPrevious SetlistManager.Previous
      rw [hact]
      dsimp only
      by_cases hdel : (v.IsLoaded && v.CanGoPrevious) = true
      · rw [if_pos hdel, if_pos hdel]
      · rw [if_neg hdel, if_neg hdel]
        by_cases hb : 0 ≤ m.m_activeItemIndex - 1
        · rw [if_pos hb]
          rw [loadActiveItem_eq env m v (m.m_activeItemIndex - 1) sl hact hb (by omega)]
          cases henv : env ((sl.GetItems.getD (m.m_activeItemIndex - 1).toNat default).fullPath) with
          | none => exact absurd henv (hload _)
          | some pc => simp [hb]
        · rw [if_neg hb]
          simp [hb]

/-- C2 witness: agreement on an active state with all loads succeeding. -/
theorem canGo_agrees_with_action_witness :
    (SetlistManager.mk [⟨"s", [⟨"a","A"⟩, ⟨"b","B"⟩]⟩] 0 0).CanGoNext ⟨true, 2, 3⟩ =
      ((SetlistManager.mk [⟨"s", [⟨"a","A"⟩, ⟨"b","B"⟩]⟩] 0 0).Next
        (fun _ => some 2) ⟨true, 2, 3⟩).2.2
    ∧ (SetlistManager.mk [⟨"s", [⟨"a","A"⟩, ⟨"b","B"⟩]⟩] 0 0).CanGoPrevious ⟨true, 2, 3⟩ =
      ((SetlistManager.mk [⟨"s", [⟨"a","A"⟩, ⟨"b","B"⟩]⟩] 0 0).Previous
        (fun _ => some 2) ⟨true, 2, 3⟩).2.2 :=
  canGo_agrees_with_action (fun _ => some 2)
    (SetlistManager.mk [⟨"s", [⟨"a","A"⟩, ⟨"b","B"⟩]⟩] 0 0) ⟨true, 2, 3⟩
    (by decide) (fun p => by simp)

/-!
## The non-empty-path invariant (C9)
-/

/-- Every item of the setlist has a non-empty path. -/
def Setlist.PathsNonEmpty (sl : Setlist) : Prop :=
  ∀ it ∈ sl.m_items, it.fullPath ≠ ""

/-- Every item of every setlist of the manager has a non-empty path. -/
def SetlistManager.PathsNonEmpty (m : SetlistManager) : Prop :=
  ∀ sl ∈ m.m_setlists, sl.PathsNonEmpty

theorem addItem_pathsNonEmpty (sl : Setlist) (name fullPath : String)
    (h : sl.PathsNonEmpty) : ((sl.AddItem name fullPath).1).PathsNonEmpty := by
  unfold Setlist.AddItem
  by_cases hp : fullPath = ""
  · rw [if_pos hp]
    exact h
  · rw [if_neg hp]
    intro it hit
    rcases List.mem_append.1 hit with hmem | hmem
    · exact h it hmem
    · rcases List.mem_singleton.1 hmem with rfl
      exact hp

theorem removeItem_pathsNonEmpty (sl : Setlist) (index : Nat)
    (h : sl.PathsNonEmpty) : ((sl.RemoveItem index).1).PathsNonEmpty := by
  unfold Setlist.RemoveItem
  split
  · exact h
  · intro it hit
    exact h it (List.mem_of_mem_eraseIdx hit)

theorem moveItem_pathsNonEmpty (sl : Setlist) (i j : Nat)
    (h : sl.PathsNonEmpty) : ((sl.MoveItem i j).1).PathsNonEmpty := by
  unfold Setlist.MoveItem
  split
  · exact h
  · split
    · exact h
    · rename_i hoob heq
      push_neg at hoob
      intro it hit
      exact h it ((moveItem_perm sl.m_items hoob.1 hoob.2).mem_iff.1 hit)

theorem updateLast_pathsNonEmpty (f : Setlist → Setlist)
    (hf : ∀ sl, sl.PathsNonEmpty → (f sl).PathsNonEmpty) :
    ∀ acc, (∀ sl ∈ acc, sl.PathsNonEmpty) →
      ∀ sl ∈ updateLast f acc, sl.PathsNonEmpty
  | [], h => by simp [updateLast]
  | [s], h => by
    intro sl hsl
    rcases List.mem_singleton.1 hsl with rfl
    exact hf s (h s (List.mem_singleton.2 rfl))
  | s :: s2 :: rest, h => by
    intro sl hsl
    rcases hsl with _ | hsl
    · exact h s (by simp)
    · exact updateLast_pathsNonEmpty f hf (s2 :: rest)
        (fun x hx => h x (List.mem_cons_of_mem s hx)) sl (by assumption)

theorem addItemToLast_pathsNonEmpty (acc : List Setlist) (rest : List Char)
    (h : ∀ sl ∈ acc, sl.PathsNonEmpty) :
    ∀ sl ∈ addItemToLast acc rest, sl.PathsNonEmpty := by
  unfold addItemToLast
  split
  · exact h
  · exact updateLast_pathsNonEmpty _ (fun sl hsl => addItem_pathsNonEmpty sl _ _ hsl) acc h

theorem parseBody_pathsNonEmpty (lines : List (List Char)) :
    ∀ acc, (∀ sl ∈ acc, sl.PathsNonEmpty) →
      ∀ sl ∈ parseBody lines acc, sl.PathsNonEmpty := by
  induction lines with
  | nil => intro acc hacc; exact hacc
  | cons line rest ih =>
    intro acc hacc
    unfold parseBody
    split
    · exact hacc
    · split
      · refine ih _ ?_
        intro sl hsl
        rcases List.mem_append.1 hsl with hmem | hmem
        · exact hacc sl hmem
        · rcases List.mem_singleton.1 hmem with rfl
          intro it hit
          exact absurd hit (List.not_mem_nil it)
      · split
        · exact ih _ (addItemToLast_pathsNonEmpty acc _ hacc)
        · exact ih _ hacc

/-- `ActivateSetlist` never changes the setlist collection. -/
theorem activateSetlist_setlists (env : Env) (m : SetlistManager) (index : Nat)
    (v : PdfViewer) : (m.ActivateSetlist env index v).1.m_setlists = m.m_setlists := by
  unfold SetlistManager.ActivateSetlist
  split
  · rfl
  · dsimp only
    split
    · rfl
    · rcases hl : SetlistManager.LoadActiveItem env
        { m with m_activeSetlistIndex := (index : Int), m_activeItemIndex := 0 } v 0
        with ⟨m2, v2, b⟩
      have hss := loadActiveItem_setlists env
        { m with m_activeSetlistIndex := (index : Int), m_activeItemIndex := 0 } v 0
      rw [hl] at hss
      dsimp only at hss
      cases b <;> simp [hl, hss]

/-- `JumpToItem` never changes the setlist collection. -/
theorem jumpToItem_setlists (env : Env) (m : SetlistManager) (si ii : Nat)
    (v : PdfViewer) : (m.JumpToItem env si ii v).1.m_setlists = m.m_setlists := by
  unfold SetlistManager.JumpToItem
  split
  · rfl
  · dsimp only
    split
    · rfl
    · rcases hl : SetlistManager.LoadActiveItem env
        { m with m_activeSetlistIndex := (si : Int), m_activeItemIndex := (ii : Int) } v (ii : Int)
        with ⟨m2, v2, b⟩
      have hss := loadActiveItem_setlists env
        { m with m_activeSetlistIndex := (si : Int), m_activeItemIndex := (ii : Int) } v (ii : Int)
      rw [hl] at hss
      dsimp only at hss
      cases b <;> simp [hl, hss]

/-- `Next` never changes the setlist collection. -/
theorem next_setlists (env : Env) (m : SetlistManager) (v : PdfViewer) :
    (m.Next env v).1.m_setlists = m.m_setlists := by
  unfold SetlistManager.Next
  cases m.GetActiveSetlist with
  | none => rfl
  | some sl =>
    dsimp only
    split
    · rfl
    · split
      · exact loadActiveItem_setlists env m v _
      · rfl

/-- `Previous` never changes the setlist collection. -/
theorem previous_setlists (env : Env) (m : SetlistManager) (v : PdfViewer) :
    (m.Previous env v).1.m_setlists = m.m_setlists := by
  unfold SetlistManager.Previous
  cases m.GetActiveSetlist with
  | none => rfl
  | some sl =>
    dsimp only
    split
    · rfl
    · split
      · rcases hl : m.LoadActiveItem env v (m.m_activeItemIndex - 1) with ⟨m2, v2, b⟩
        have hss := loadActiveItem_setlists env m v (m.m_activeItemIndex - 1)
        rw [hl] at hss
        dsimp only at hss
        cases b <;> simp [hss]
      · rfl

/-- C9: every item held in any setlist has a non-empty `fullPath`, and this
invariant is preserved by every operation — item insertion always goes through
`AddItem`, which rejects an empty path; in particular (final conjunct) an
`ITEM` line whose path field is empty is silently dropped by `LoadFromFile`. -/
theorem pathsNonEmpty_invariant :
    (∀ (sl : Setlist) (name fullPath : String),
      sl.PathsNonEmpty → ((sl.AddItem name fullPath).1).PathsNonEmpty)
    ∧ (∀ (sl : Setlist) (index : Nat),
      sl.PathsNonEmpty → ((sl.RemoveItem index).1).PathsNonEmpty)
    ∧ (∀ (sl : Setlist) (i j : Nat),
      sl.PathsNonEmpty → ((sl.MoveItem i j).1).PathsNonEmpty)
    ∧ (∀ sl : Setlist, (sl.Clear).PathsNonEmpty)
    ∧ (∀ (m : SetlistManager) (name : String),
      m.PathsNonEmpty → ((m.CreateSetlist name).1).PathsNonEmpty)
    ∧ (∀ (m : SetlistManager) (index : Nat),
      m.PathsNonEmpty → ((m.RemoveSetlist index).1).PathsNonEmpty)
    ∧ (∀ (m : SetlistManager) (content : List Char),
      m.PathsNonEmpty → ((m.LoadFromFile content).1).PathsNonEmpty)
    ∧ (∀ (env : Env) (m : SetlistManager) (i : Nat) (v : PdfViewer),
      m.PathsNonEmpty → ((m.ActivateSetlist env i v).1).PathsNonEmpty)
    ∧ (∀ (env : Env) (m : SetlistManager) (si ii : Nat) (v : PdfViewer),
      m.PathsNonEmpty → ((m.JumpToItem env si ii v).1).PathsNonEmpty)
    ∧ (∀ (env : Env) (m : SetlistManager) (v : PdfViewer), m.PathsNonEmpty →
      ((m.Next env v).1).PathsNonEmpty ∧ ((m.Previous env v).1).PathsNonEmpty)
    ∧ (∀ m : SetlistManager, m.PathsNonEmpty → (m.Deactivate).PathsNonEmpty)
    ∧ ((SetlistManager.mk [] (-1) (-1)).LoadFromFile
        "SETLISTS_V1\nSETLIST:A\nITEM:x\t\nEND\n".data =
        ({ m_setlists := [⟨"A", []⟩], m_activeSetlistIndex := -1,
           m_activeItemIndex := -1 }, true)) := by
  refine ⟨addItem_pathsNonEmpty, removeItem_pathsNonEmpty, moveItem_pathsNonEmpty,
    ?_, ?_, ?_, ?_, ?_, ?_, ?_, ?_, ?_⟩
  · intro sl it hit
    exact absurd hit (List.not_mem_nil it)
  · intro m name h sl hsl
    rcases List.mem_append.1 hsl with hmem | hmem
    · exact h sl hmem
    · rcases List.mem_singleton.1 hmem with rfl
      intro it hit
      exact absurd hit (List.not_mem_nil it)
  · intro m index h
    unfold SetlistManager.RemoveSetlist
    split
    · exact h
    · intro sl hsl
      dsimp only at hsl
      have hmem := List.mem_of_mem_eraseIdx hsl
      revert hmem
      split
      · intro hmem
        exact h sl hmem
      · split <;> (intro hmem; exact h sl hmem)
  · intro m content h
    unfold SetlistManager.LoadFromFile
    cases splitLines content with
    | nil => exact h
    | cons header rest =>
      dsimp only
      split
      · intro sl hsl
        exact parseBody_pathsNonEmpty rest []
          (fun x hx => absurd hx (List.not_mem_nil x)) sl hsl
      · exact h
  · intro env m i v h sl hsl
    rw [activateSetlist_setlists] at hsl
    exact h sl hsl
  · intro env m si ii v h sl hsl
    rw [jumpToItem_setlists] at hsl
    exact h sl hsl
  · intro env m v h
    constructor
    · intro sl hsl
      rw [next_setlists] at hsl
      exact h sl hsl
    · intro sl hsl
      rw [previous_setlists] at hsl
      exact h sl hsl
  · intro m h sl hsl
    exact h sl hsl
  · decide

/-- C9 witness: loading a well-formed file into a manager satisfying the
invariant preserves it. -/
theorem pathsNonEmpty_invariant_witness :
    (((SetlistManager.mk [⟨"s", [⟨"x","X"⟩]⟩] 0 0).LoadFromFile
        "SETLISTS_V1\nSETLIST:A\nITEM:a\tP\nEND\n".data).1).PathsNonEmpty :=
  pathsNonEmpty_invariant.2.2.2.2.2.2.1
    (SetlistManager.mk [⟨"s", [⟨"x","X"⟩]⟩] 0 0)
    "SETLISTS_V1\nSETLIST:A\nITEM:a\tP\nEND\n".data
    (by unfold SetlistManager.PathsNonEmpty Setlist.PathsNonEmpty; decide)

/-!
## Round-trip lemmas (C4)
-/

theorem takeWhile_append_stop (p : Char → Bool) (l t : List Char) (x : Char)
    (hl : ∀ a ∈ l, p a = true) (hx : p x = false) :
    (l ++ x :: t).takeWhile p = l := by
  induction l with
  | nil => simp [List.takeWhile_cons, hx]
  | cons a l ih =>
    simp only [List.cons_append, List.takeWhile_cons, hl a (List.mem_cons_self a l), if_true]
    rw [ih (fun b hb => hl b (List.mem_cons_of_mem a hb))]

theorem dropWhile_append_stop (p : Char → Bool) (l t : List Char) (x : Char)
    (hl : ∀ a ∈ l, p a = true) (hx : p x = false) :
    (l ++ x :: t).dropWhile p = x :: t := by
  induction l with
  | nil => simp [List.dropWhile_cons, hx]
  | cons a l ih =>
    simp only [List.cons_append, List.dropWhile_cons, hl a (List.mem_cons_self a l), if_true]
    exact ih (fun b hb => hl b (List.mem_cons_of_mem a hb))

theorem splitLines_append (l t : List Char) (hl : '\n' ∉ l) :
    splitLines (l ++ '\n' :: t) = l :: splitLines t := by
  induction l with
  | nil => rfl
  | cons c l ih =>
    have hc : ¬ (c = '\n') := fun h => hl (h ▸ List.mem_cons_self c l)
    have ihl := ih (fun h => hl (List.mem_cons_of_mem c h))
    rw [List.cons_append, splitLines.eq_3 c (l ++ '\n' :: t) (fun h => hc h), ihl]

theorem joinLines_cons (l : List Char) (ls : List (List Char)) :
    joinLines (l :: ls) = l ++ '\n' :: joinLines ls := by
  simp [joinLines]

theorem splitLines_joinLines (ls : List (List Char)) (h : ∀ l ∈ ls, '\n' ∉ l) :
    splitLines (joinLines ls) = ls := by
  induction ls with
  | nil => rfl
  | cons l ls ih =>
    rw [joinLines_cons, splitLines_append l _ (h l (List.mem_cons_self l ls)),
      ih (fun x hx => h x (List.mem_cons_of_mem l hx))]

theorem isPrefixOf_append_self (l t : List Char) : l.isPrefixOf (l ++ t) = true := by
  induction l with
  | nil => simp [List.isPrefixOf]
  | cons a l ih => simp [List.isPrefixOf, ih]

theorem isPrefixOf_cons_ne (a b : Char) (l t : List Char) (h : ¬ a = b) :
    (a :: l).isPrefixOf (b :: t) = false := by
  simp [List.isPrefixOf, h]

/-- One step of the `LoadFromFile` parsing loop. -/
theorem parseBody_cons (line : List Char) (rest : List (List Char)) (acc : List Setlist) :
    parseBody (line :: rest) acc =
      if line = "END".data then acc
      else if "SETLIST:".data.isPrefixOf line then
        parseBody rest (acc ++ [{ m_name := ⟨line.drop 8⟩, m_items := [] }])
      else if "ITEM:".data.isPrefixOf line ∧ acc ≠ [] then
        parseBody rest (addItemToLast acc (line.drop 5))
      else parseBody rest acc := rfl

theorem setlistLine_ne_end (x : List Char) : ¬ ("SETLIST:".data ++ x = "END".data) := by
  rw [show "SETLIST:".data ++ x = 'S' :: ("ETLIST:".data ++ x) from rfl,
    show "END".data = 'E' :: "ND".data from rfl]
  intro h
  simp only [List.cons.injEq] at h
  exact absurd h.1 (by decide)

theorem itemLine_ne_end (it : SetlistItem) : ¬ (itemLine it = "END".data) := by
  rw [show itemLine it =
      'I' :: ("TEM:".data ++ (it.name.data ++ '\t' :: it.fullPath.data)) from rfl,
    show "END".data = 'E' :: "ND".data from rfl]
  intro h
  simp only [List.cons.injEq] at h
  exact absurd h.1 (by decide)

theorem setlist_isPrefixOf_itemLine (it : SetlistItem) :
    "SETLIST:".data.isPrefixOf (itemLine it) = false := by
  rw [show "SETLIST:".data = 'S' :: "ETLIST:".data from rfl]
  rw [show itemLine it =
      'I' :: ("TEM:".data ++ (it.name.data ++ '\t' :: it.fullPath.data)) from rfl]
  exact isPrefixOf_cons_ne _ _ _ _ (by decide)

theorem item_isPrefixOf_itemLine (it : SetlistItem) :
    "ITEM:".data.isPrefixOf (itemLine it) = true := by
  rw [show itemLine it =
      "ITEM:".data ++ (it.name.data ++ '\t' :: it.fullPath.data) from rfl]
  exact isPrefixOf_append_self _ _

theorem itemLine_drop5 (it : SetlistItem) :
    (itemLine it).drop 5 = it.name.data ++ '\t' :: it.fullPath.data := by
  rw [show itemLine it =
      "ITEM:".data ++ (it.name.data ++ '\t' :: it.fullPath.data) from rfl]
  exact List.drop_left' rfl

theorem updateLast_append (f : Setlist → Setlist) (acc : List Setlist) (s : Setlist) :
    updateLast f (acc ++ [s]) = acc ++ [f s] := by
  induction acc with
  | nil => rfl
  | cons a acc ih =>
    cases acc with
    | nil => rfl
    | cons b acc2 =>
      rw [List.cons_append]
      rw [show updateLast f (a :: ((b :: acc2) ++ [s])) =
          a :: updateLast f ((b :: acc2) ++ [s]) from rfl]
      rw [ih]
      rfl

theorem addItemToLast_eq (acc : List Setlist) (name : String) (path : String)
    (hname : '\t' ∉ name.data) :
    addItemToLast acc (name.data ++ '\t' :: path.data) =
      updateLast (fun sl => (sl.AddItem name path).1) acc := by
  have hfun : ∀ a ∈ name.data, (fun ch => decide (ch ≠ '\t')) a = true :=
    fun a ha => decide_eq_true (show a ≠ '\t' from fun hEq => hname (hEq ▸ ha))
  unfold addItemToLast
  rw [takeWhile_append_stop _ _ _ _ hfun (by decide),
    dropWhile_append_stop _ _ _ _ hfun (by decide)]

theorem parseBody_itemLines (items : List SetlistItem) (rest : List (List Char))
    (acc : List Setlist) (sl : Setlist)
    (hitems : ∀ it ∈ items, '\t' ∉ it.name.data ∧ it.fullPath ≠ "") :
    parseBody (items.map itemLine ++ rest) (acc ++ [sl]) =
      parseBody rest (acc ++ [{ sl with m_items := sl.m_items ++ items }]) := by
  induction items generalizing sl with
  | nil => simp
  | cons it items ih =>
    obtain ⟨hname, hpath⟩ := hitems it (List.mem_cons_self it items)
    rw [List.map_cons, List.cons_append, parseBody_cons,
      if_neg (itemLine_ne_end it),
      if_neg (by rw [setlist_isPrefixOf_itemLine it]; exact Bool.false_ne_true),
      if_pos ⟨item_isPrefixOf_itemLine it, by simp⟩,
      itemLine_drop5 it,
      show it.name.data ++ '\t' :: it.fullPath.data =
        (String.mk it.name.data).data ++ '\t' :: (String.mk it.fullPath.data).data from rfl,
      addItemToLast_eq (acc ++ [sl]) (String.mk it.name.data) (String.mk it.fullPath.data) hname,
      updateLast_append]
    rw [show ((sl.AddItem (String.mk it.name.data) (String.mk it.fullPath.data)).1) =
        { sl with m_items := sl.m_items ++ [it] } from by
      unfold Setlist.AddItem
      rw [if_neg (show ¬ (String.mk it.fullPath.data = "") from hpath)]]
    rw [ih _ (fun x hx => hitems x (List.mem_cons_of_mem it hx))]
    simp

theorem parseBody_setlistLines (sls : List Setlist) (rest : List (List Char))
    (acc : List Setlist)
    (hsls : ∀ sl ∈ sls, ∀ it ∈ sl.m_items, '\t' ∉ it.name.data ∧ it.fullPath ≠ "") :
    parseBody ((sls.map setlistLines).flatten ++ rest) acc = parseBody rest (acc ++ sls) := by
  induction sls generalizing acc with
  | nil => simp
  | cons sl sls ih =>
    rw [List.map_cons, List.flatten_cons]
    rw [show (setlistLines sl ++ (sls.map setlistLines).flatten) ++ rest =
      ("SETLIST:".data ++ sl.m_name.data) ::
        (sl.m_items.map itemLine ++ ((sls.map setlistLines).flatten ++ rest)) from by
      simp [setlistLines]]
    rw [parseBody_cons, if_neg (setlistLine_ne_end _),
      if_pos (isPrefixOf_append_self _ _),
      show ("SETLIST:".data ++ sl.m_name.data).drop 8 = sl.m_name.data from
        List.drop_left' rfl]
    rw [show ({ m_name := String.mk sl.m_name.data, m_items := [] } : Setlist) =
      ({ m_name := sl.m_name, m_items := [] } : Setlist) from rfl]
    rw [parseBody_itemLines sl.m_items _ acc { m_name := sl.m_name, m_items := [] }
      (hsls sl (List.mem_cons_self sl sls))]
    rw [show ({ m_name := sl.m_name, m_items := [] } : Setlist).m_items ++ sl.m_items =
      sl.m_items from by simp]
    rw [show ({ ({ m_name := sl.m_name, m_items := [] } : Setlist) with
      m_items := sl.m_items } : Setlist) = sl from rfl]
    rw [ih _ (fun x hx => hsls x (List.mem_cons_of_mem sl hx))]
    simp

theorem saveToFile_splitLines (m : SetlistManager)
    (h : ∀ sl ∈ m.m_setlists, '\n' ∉ sl.m_name.data ∧
      ∀ it ∈ sl.m_items, '\n' ∉ it.name.data ∧ '\n' ∉ it.fullPath.data) :
    splitLines m.SaveToFile =
      "SETLISTS_V1".data :: ((m.m_setlists.map setlistLines).flatten ++ ["END".data]) := by
  unfold SetlistManager.SaveToFile
  apply splitLines_joinLines
  intro l hl
  rcases List.mem_cons.1 hl with rfl | hl
  · decide
  rcases List.mem_append.1 hl with hl | hl
  · rcases List.mem_flatten.1 hl with ⟨block, hblock, hlblock⟩
    rcases List.mem_map.1 hblock with ⟨sl, hsl, rfl⟩
    obtain ⟨hname, hits⟩ := h sl hsl
    rcases List.mem_cons.1 hlblock with rfl | hl2
    · intro hmem
      rcases List.mem_append.1 hmem with hm | hm
      · exact absurd hm (by decide)
      · exact hname hm
    · rcases List.mem_map.1 hl2 with ⟨it, hit, rfl⟩
      obtain ⟨hn, hp⟩ := hits it hit
      intro hmem
      unfold itemLine at hmem
      rcases List.mem_append.1 hmem with hm | hm
      · rcases List.mem_append.1 hm with hm2 | hm2
        · exact absurd hm2 (by decide)
        · exact hn hm2
      · rcases List.mem_cons.1 hm with heq | hm2
        · exact absurd heq (by decide)
        · exact hp hm2
  · rcases List.mem_singleton.1 hl with rfl
    decide

/-- C4 counterexample: a manager whose setlist name and item display name are
tab- and newline-free (the claim's precondition) but whose item path contains
a newline does not survive the save/load round trip — the claim as stated, with
no condition on paths, is false. -/
theorem save_load_roundtrip_counterexample :
    (∀ sl ∈ (SetlistManager.mk [⟨"s", [⟨"x", "p\nq"⟩]⟩] (-1) (-1)).m_setlists,
      ('\t' ∉ sl.m_name.data ∧ '\n' ∉ sl.m_name.data) ∧
      ∀ it ∈ sl.m_items, '\t' ∉ it.name.data ∧ '\n' ∉ it.name.data)
    ∧ ¬ (((SetlistManager.mk [] (-1) (-1)).LoadFromFile
          (SetlistManager.mk [⟨"s", [⟨"x", "p\nq"⟩]⟩] (-1) (-1)).SaveToFile).1.m_setlists =
        (SetlistManager.mk [⟨"s", [⟨"x", "p\nq"⟩]⟩] (-1) (-1)).m_setlists) := by
  exact ⟨by decide, by decide⟩

/-- C4 (amended): for every manager whose setlist names and item display names
contain no tab or newline, and whose item full paths contain no newline and
are non-empty, `SaveToFile` followed by `LoadFromFile` into any fresh manager
reproduces the same setlist names, item display names, and item full paths,
byte for byte, in the same order. -/
theorem save_load_roundtrip (m fresh : SetlistManager)
    (h : ∀ sl ∈ m.m_setlists,
      ('\t' ∉ sl.m_name.data ∧ '\n' ∉ sl.m_name.data) ∧
      ∀ it ∈ sl.m_items,
        ('\t' ∉ it.name.data ∧ '\n' ∉ it.name.data) ∧
        ('\n' ∉ it.fullPath.data ∧ it.fullPath ≠ "")) :
    (fresh.LoadFromFile m.SaveToFile).2 = true
    ∧ (fresh.LoadFromFile m.SaveToFile).1.m_setlists = m.m_setlists := by
  have hsplit := saveToFile_splitLines m (fun sl hsl => ⟨(h sl hsl).1.2,
    fun it hit => ⟨((h sl hsl).2 it hit).1.2, ((h sl hsl).2 it hit).2.1⟩⟩)
  unfold SetlistManager.LoadFromFile
  rw [hsplit]
  dsimp only
  rw [if_pos rfl]
  refine ⟨rfl, ?_⟩
  dsimp only
  rw [parseBody_setlistLines m.m_setlists ["END".data] []
    (fun sl hsl it hit => ⟨((h sl hsl).2 it hit).1.1, ((h sl hsl).2 it hit).2.2⟩)]
  rw [parseBody_cons, if_pos rfl]
  simp

/-- C4 witness: a two-setlist manager with ordinary names and paths
round-trips exactly. -/
theorem save_load_roundtrip_witness :
    ((SetlistManager.mk [] (-1) (-1)).LoadFromFile
      (SetlistManager.mk [⟨"s1", [⟨"a","A"⟩, ⟨"b","B"⟩]⟩, ⟨"s2", []⟩] 1 0).SaveToFile).2 = true
    ∧ ((SetlistManager.mk [] (-1) (-1)).LoadFromFile
      (SetlistManager.mk [⟨"s1", [⟨"a","A"⟩, ⟨"b","B"⟩]⟩, ⟨"s2", []⟩] 1 0).SaveToFile).1.m_setlists =
      (SetlistManager.mk [⟨"s1", [⟨"a","A"⟩, ⟨"b","B"⟩]⟩, ⟨"s2", []⟩] 1 0).m_setlists :=
  save_load_roundtrip (SetlistManager.mk [⟨"s1", [⟨"a","A"⟩, ⟨"b","B"⟩]⟩, ⟨"s2", []⟩] 1 0)
    (SetlistManager.mk [] (-1) (-1)) (by decide)
